import Mathlib

/-!
Verification of the metrics documentation generator (`tools/doc-generator`)
and the deprecated-feature-gate lookup of the KubeVirt repository.

The Go source is shallowly embedded: strings are Lean `String`s, the
`bufio.Scanner` over the scraped exposition body becomes an explicit
`List String` of lines with the shared forward-scanning cursor made
explicit, and a Go panic (index out of range on an unguarded slice
access) is modelled by `Option.none`.  The Go standard-library string
primitives used by the source (`strings.Split`, `strings.HasPrefix`,
`strings.Contains`, `strings.Title`, `strings.Join`) are re-defined here
over `String.data` so that every definition is executable by the kernel;
each such definition documents the Go function it models.
-/

namespace docgen

/-- Model of Go `strings.Split(s, " ")` restricted to character lists:
split around every occurrence of `sep`; `n+1` groups for `n` separators. -/
def splitCharGo (sep : Char) : List Char → List (List Char)
  | [] => [[]]
  | c :: rest =>
    let r := splitCharGo sep rest
    if c = sep then [] :: r
    else
      match r with
      | [] => [[c]]
      | g :: gs => (c :: g) :: gs

/-- Model of Go `strings.Split(s, " ")` (the only separator the program
uses): the list of space-separated fields, empty fields included. -/
def splitGo (s : String) : List String :=
  (splitCharGo ' ' s.data).map (fun l => ⟨l⟩)

/-- Model of Go `strings.HasPrefix(s, pre)`. -/
def hasPrefixGo (s pre : String) : Bool :=
  pre.data.isPrefixOf s.data

/-- Does `pat` occur as a contiguous run inside the character list? -/
def hasSubAux (pat : List Char) : List Char → Bool
  | [] => pat.isPrefixOf []
  | c :: t => pat.isPrefixOf (c :: t) || hasSubAux pat t

/-- Model of Go `strings.Contains(s, pat)`. -/
def containsGo (s pat : String) : Bool :=
  hasSubAux pat.data s.data

/-- Model of Go `strings.Join(elems, " ")`. -/
def joinGo : List String → String
  | [] => ""
  | [s] => s
  | s :: t => s ++ " " ++ joinGo t

/-- Go `unicode`/`strings` word-separator test used by `strings.Title`
(ASCII part): ASCII letters, digits and underscore do not separate
words, every other character does. -/
def isSeparatorGo (c : Char) : Bool :=
  !(('0' ≤ c && c ≤ '9') || ('a' ≤ c && c ≤ 'z') || ('A' ≤ c && c ≤ 'Z') || c = '_')

/-- Character-list worker for `titleGo`: upper-case every letter that
follows a word separator (the flag carries whether the previous
character was a separator; it starts out true). -/
def titleAux : List Char → Bool → List Char
  | [], _ => []
  | c :: t, prevSep =>
    (if prevSep && c.isAlpha then c.toUpper else c) :: titleAux t (isSeparatorGo c)

/-- Model of Go `strings.Title(s)` (ASCII part): upper-case each letter
that begins a word. -/
def titleGo (s : String) : String :=
  ⟨titleAux s.data true⟩

/-- Byte/lexicographic strict order on character lists: Go's `<` on
strings (UTF-8 byte order coincides with code-point order). -/
def charListLt : List Char → List Char → Bool
  | [], [] => false
  | [], _ :: _ => true
  | _ :: _, [] => false
  | a :: as, b :: bs => if a < b then true else if a = b then charListLt as bs else false

/-- Byte/lexicographic reflexive order on character lists: Go's `<=` on
strings. -/
def charListLe : List Char → List Char → Bool
  | [], _ => true
  | _ :: _, [] => false
  | a :: as, b :: bs => if a < b then true else if a = b then charListLe as bs else false

theorem charListLe_eq_not_lt : ∀ x y : List Char, charListLe x y = !charListLt y x
  | [], [] => rfl
  | [], _ :: _ => rfl
  | _ :: _, [] => rfl
  | a :: as, b :: bs => by
    simp only [charListLe, charListLt]
    rcases lt_trichotomy a b with h | h | h
    · rw [if_pos h, if_neg (lt_asymm h), if_neg (Ne.symm (ne_of_lt h))]; rfl
    · subst h
      rw [if_neg (lt_irrefl a), if_pos rfl, if_neg (lt_irrefl a), if_pos rfl]
      exact charListLe_eq_not_lt as bs
    · rw [if_neg (lt_asymm h), if_neg (ne_of_gt h), if_pos h]; rfl

theorem charListLe_total : ∀ x y : List Char, charListLe x y = true ∨ charListLe y x = true
  | [], _ => Or.inl rfl
  | _ :: _, [] => Or.inr rfl
  | a :: as, b :: bs => by
    simp only [charListLe]
    rcases lt_trichotomy a b with h | h | h
    · left; rw [if_pos h]
    · subst h
      rw [if_neg (lt_irrefl a), if_pos rfl, if_neg (lt_irrefl a), if_pos rfl]
      exact charListLe_total as bs
    · right; rw [if_pos h]

theorem charListLe_trans : ∀ x y z : List Char,
    charListLe x y = true → charListLe y z = true → charListLe x z = true
  | [], _, _, _, _ => rfl
  | _ :: _, [], _, hxy, _ => by simp [charListLe] at hxy
  | _ :: _, _ :: _, [], _, hyz => by simp [charListLe] at hyz
  | a :: as, b :: bs, c :: cs, hxy, hyz => by
    simp only [charListLe] at hxy hyz ⊢
    by_cases hab : a < b
    · by_cases hbc : b < c
      · rw [if_pos (lt_trans hab hbc)]
      · rw [if_pos hab] at hxy
        by_cases hbc' : b = c
        · subst hbc'; rw [if_pos hab]
        · rw [if_neg hbc, if_neg hbc'] at hyz; exact absurd hyz (by simp)
    · by_cases hab' : a = b
      · subst hab'
        rw [if_neg hab, if_pos rfl] at hxy
        by_cases hac : a < c
        · rw [if_pos hac]
        · by_cases hac' : a = c
          · subst hac'
            rw [if_neg hac, if_pos rfl] at hyz ⊢
            exact charListLe_trans as bs cs hxy hyz
          · rw [if_neg hac, if_neg hac'] at hyz; exact absurd hyz (by simp)
      · rw [if_neg hab, if_neg hab'] at hxy; exact absurd hxy (by simp)

/-- The sole entity of the generator (source `type metric struct`):
a metric's name, description and value type. -/
structure metric where
  name : String
  description : String
  mType : String
deriving DecidableEq, Inhabited

/-- Source `type metricList []metric`. -/
abbrev metricList := List metric

/-- Element-wise form of source `metricList.Less(i, j)`, which compares
`m[i].name < m[j].name` with Go's byte/lexicographic `<` on strings. -/
def metricLess (a b : metric) : Bool :=
  charListLt a.name.data b.name.data

/-- The ordering the sorted catalog satisfies: a catalog is sorted by
`sort.Sort` with `metricList.Less` exactly when consecutive elements are
never `Less`-inverted, i.e. names are non-decreasing byte/lexicographically. -/
def metricLe (a b : metric) : Prop :=
  metricLess b a = false

instance : DecidableRel metricLe := fun a b => by
  unfold metricLe; infer_instance

theorem metricLe_iff (a b : metric) :
    metricLe a b ↔ charListLe a.name.data b.name.data = true := by
  unfold metricLe metricLess
  rw [charListLe_eq_not_lt]
  cases charListLt b.name.data a.name.data <;> simp

instance : IsTotal metric metricLe :=
  ⟨fun a b => by
    rw [metricLe_iff, metricLe_iff]
    exact charListLe_total a.name.data b.name.data⟩

instance : IsTrans metric metricLe :=
  ⟨fun a b c hab hbc => by
    rw [metricLe_iff] at hab hbc ⊢
    exact charListLe_trans _ _ _ hab hbc⟩

/-- Model of the `sort.Sort(metrics)` call in `parseVirtMetrics`: the
standard-library sort applied with `metricList.Less` leaves the slice
ordered by name, non-decreasing byte/lexicographically; it permutes and
never inserts or drops elements, and on a slice already in that order it
performs no swaps.  Realized as an insertion sort for the relation
`metricLe` (= "not `Less`-inverted"). -/
def sortMetrics (m : metricList) : metricList :=
  List.insertionSort metricLe m

/-- Source `metric.writeToFile`: three `fmt.Fprintln` calls produce the
heading line `### <name>`, the body line `<description> Type: <mType>.`
and a blank line. -/
def metric.writeToFile (m : metric) : String :=
  "### " ++ m.name ++ "\n" ++ m.description ++ " Type: " ++ m.mType ++ ".\n\n"

/-- Source `metricList.writeToFile`: one block per entry, in list order,
appended left to right with no re-ordering. -/
def metricList.writeToFile : metricList → String
  | [] => ""
  | m :: rest => metric.writeToFile m ++ metricList.writeToFile rest

/-- Source constant `genFileComment`. -/
def genFileComment : String :=
  "<!--\n\tThis is an auto-generated file.\n\tPLEASE DO NOT EDIT THIS FILE.\n\tSee \"Developing new metrics\" below how to generate this file\n-->"

/-- Source constant `title`. -/
def title : String := "# KubeVirt metrics\n"

/-- Source constant `background`. -/
def background : String :=
  "This document aims to help users that are not familiar with all metrics exposed by different KubeVirt components.\nAll metrics documented here are auto-generated by the utility tool `tools/doc-generator` and reflects exactly what is being exposed.\n\n"

/-- Source constant `KVSpecificMetrics`. -/
def KVSpecificMetrics : String :=
  "## KubeVirt Metrics List\n### kubevirt_info\nVersion information.\n\n"

/-- Source constant `opening`. -/
def opening : String :=
  genFileComment ++ "\n\n" ++ title ++ background ++ KVSpecificMetrics

/-- Source constant `footerHeading`. -/
def footerHeading : String := "## Developing new metrics\n"

/-- Source constant `footerContent`. -/
def footerContent : String :=
  "After developing new metrics or changing old ones, please run `make generate` to regenerate this document.\n\nIf you feel that the new metric doesn't follow these rules, please change `doc-generator` with your needs.\n"

/-- Source constant `footer`. -/
def footer : String := footerHeading ++ footerContent

/-- Source `writeToFile(metrics metricList)`: the document written to
`newmetrics.md` is the fixed opening, one block per catalog entry in
catalog order, then the fixed footer. -/
def writeToFile (metrics : metricList) : String :=
  opening ++ metricList.writeToFile metrics ++ footer

/-- Source constant `filter = "kubevirt_"`: the namespace filter. -/
def filter : String := "kubevirt_"

/-- A help line the scan loop of `parseVirtMetrics` accepts: prefix
`# HELP ` and the `filter` substring somewhere in the whole line. -/
def isQualHelp (l : String) : Bool :=
  hasPrefixGo l "# HELP " && containsGo l filter

/-- The metric name a help line declares: its 3rd space-separated field
(`split[2]`). -/
def helpName (l : String) : String :=
  (splitGo l).getD 2 ""

/-- A line `parseMetricType name` stops at: prefix `# TYPE ` and
`split[2]` equal to `name`. -/
def isTypeLineFor (name l : String) : Bool :=
  hasPrefixGo l "# TYPE " && ((splitGo l).getD 2 "" == name)

/-- Source `parseMetricDesc(line)`: split the line on single spaces,
read the name from `split[2]`, title-case `split[3]` and rejoin
`split[3:]` with single spaces as the description.  The two slice
accesses are unguarded in the source; `none` models the Go
index-out-of-range panic when the line has fewer than 4 fields. -/
def parseMetricDesc (line : String) : Option (String × String) :=
  let split := splitGo line
  match split[2]?, split[3]? with
  | some name, some w => some (name, joinGo (titleGo w :: split.drop 4))
  | _, _ => none

/-- Source `parseMetricType(scan, name)`: advance the shared scanner,
consuming lines, until a line with prefix `# TYPE ` whose `split[2]`
equals `name` is found; return its title-cased `split[3]` together with
the lines left unconsumed.  Reaching the end of the stream returns the
empty type (and no lines).  `none` models the index-out-of-range panic
on a matching type line with fewer than 4 fields (the `split[2]` access
cannot be out of range, since the `# TYPE ` prefix itself contains two
spaces). -/
def parseMetricType (name : String) : List String → Option (String × List String)
  | [] => some ("", [])
  | typeLine :: rest =>
    if hasPrefixGo typeLine "# TYPE " then
      match (splitGo typeLine)[2]? with
      | none => none
      | some n2 =>
        if n2 == name then
          match (splitGo typeLine)[3]? with
          | none => none
          | some t => some (titleGo t, rest)
        else parseMetricType name rest
    else parseMetricType name rest

/-- The scan loop of source `parseVirtMetrics` with the shared
`bufio.Scanner` cursor made explicit.  State `none`: the outer loop is
looking at the next line; a line with prefix `# HELP ` that contains the
`filter` substring anywhere is handed to `parseMetricDesc`, after which
control moves to `parseMetricType` for that name.  State
`some (name, desc)`: `parseMetricType name` is consuming lines; a
matching type line emits the completed metric and returns control to the
outer loop, and end of stream emits it with the empty type.  Descriptors
are returned in the order the source appends them to `*metrics`;
`Option.none` models the panics of `parseMetricDesc`/`parseMetricType`. -/
def parseAux : List String → Option (String × String) → Option metricList
  | [], none => some []
  | [], some (nm, desc) => some [⟨nm, desc, ""⟩]
  | l :: rest, none =>
    if isQualHelp l then
      match parseMetricDesc l with
      | none => none
      | some (nm, desc) => parseAux rest (some (nm, desc))
    else parseAux rest none
  | l :: rest, some (nm, desc) =>
    if hasPrefixGo l "# TYPE " then
      match (splitGo l)[2]? with
      | none => none
      | some n2 =>
        if n2 == nm then
          match (splitGo l)[3]? with
          | none => none
          | some t => (fun ms => ⟨nm, desc, titleGo t⟩ :: ms) <$> parseAux rest none
        else parseAux rest (some (nm, desc))
    else parseAux rest (some (nm, desc))

/-- Source `parseVirtMetrics(r, metrics)`: scan the body, append one
descriptor per accepted help line to the incoming catalog, then
`sort.Sort` the result.  On a pure in-memory body `scan.Err()` is always
nil, so the only failure mode is the modelled panic (`none`); success
returns the sorted catalog. -/
def parseVirtMetrics (lines : List String) (metrics : metricList) : Option metricList :=
  match parseAux lines none with
  | none => none
  | some parsed => some (sortMetrics (metrics ++ parsed))

/-- Well-formedness of an exposition body, mirroring the two states of
the scan: every accepted help line has at least 4 fields, and its
`# TYPE ` line — one with at least 4 fields declaring the same name —
appears later in the stream before any other accepted help line.
State `none`: looking for the next help line; state `some name`: looking
for the type line of `name`. -/
def wfAux : Option String → List String → Bool
  | none, [] => true
  | none, l :: rest =>
    if isQualHelp l then
      decide (4 ≤ (splitGo l).length) && wfAux (some (helpName l)) rest
    else wfAux none rest
  | some _, [] => false
  | some name, t :: rest =>
    if isTypeLineFor name t then
      decide (4 ≤ (splitGo t).length) && wfAux none rest
    else if isQualHelp t then false
    else wfAux (some name) rest

/-- A well-formed exposition body (see `wfAux`). -/
def wellFormed (lines : List String) : Bool :=
  wfAux none lines

/-- One entry of the collaborator-provided recording-rule list
(`components.GetRecordingRules`): record name, description and declared
value-type label. -/
structure RecordingRule where
  record : String
  description : String
  mType : String
deriving DecidableEq

/-- The rule-adapter loop of source
`getMetricsNotIncludeInEndpointByDefault` (lines 189–195): one
descriptor per rule, value type passed through `strings.Title`. -/
def ruleAdapter (rules : List RecordingRule) : metricList :=
  rules.map (fun rule => ⟨rule.record, rule.description, titleGo rule.mType⟩)

/-- Source `getMetricsNotIncludeInEndpointByDefault`: the hand-written
static registry literals followed by the adapted recording rules.  The
13 literal entries reference name constants of `domainstats` that are
defined outside the sources under study, so the literal list is taken as
a parameter; the appending of the adapted rules is from the source. -/
def getMetricsNotIncludeInEndpointByDefault
    (staticMetrics : metricList) (rules : List RecordingRule) : metricList :=
  staticMetrics ++ ruleAdapter rules

/-- Source `main` after the in-process scrape returned, with the
response made explicit: on status 200 the body is parsed into the
catalog and the document is rendered; on any other status the run
panics with a message carrying the observed code, before any parsing or
writing.  `Except.error` models the panic, `Except.ok` the complete
rendered document. -/
def main (status : Nat) (body : List String) (initialMetrics : metricList) :
    Except String String :=
  if status = 200 then
    match parseVirtMetrics body initialMetrics with
    | some ms => Except.ok (writeToFile ms)
    | none => Except.error "runtime error: index out of range"
  else
    Except.error ("got HTTP status code of " ++ toString status ++ " from /metrics")

end docgen

namespace virtconfig

/-- Source constant `GA` (the source spells its value "Genraly
Available"). -/
def GA : String := "Genraly Available"

/-- Source constant `Deprecated`. -/
def Deprecated : String := "Deprecated"

/-- Source constant `Discontinued`. -/
def Discontinued : String := "Discontinued"

/-- Source `type DeprecatedFeatureGate struct`. -/
structure DeprecatedFeatureGate where
  Name : String
  State : String
  Message : String
deriving DecidableEq

/-- The part of `ClusterConfig` the lookup reads:
`config.GetConfig().DeveloperConfiguration.FeatureGates`. -/
structure ClusterConfig where
  featureGates : List String
deriving DecidableEq

/-- Source `DeprecatedFeatureGateInfo(featureGate)`: first entry of the
deprecated-feature-gate table with the given name, if any.  The source's
global `featureGates` array names gate constants defined outside the
sources under study, so the table is a parameter. -/
def DeprecatedFeatureGateInfo
    (table : List DeprecatedFeatureGate) (featureGate : String) :
    Option DeprecatedFeatureGate :=
  table.find? (fun d => featureGate == d.Name)

/-- Source `(config *ClusterConfig) isFeatureGateEnabled(featureGate)`:
a tabled gate in state `GA` is always enabled and one in state
`Discontinued` never is; any other tabled state, and any name absent
from the table, falls through to membership in the configuration's
feature-gate list. -/
def isFeatureGateEnabled
    (table : List DeprecatedFeatureGate) (config : ClusterConfig)
    (featureGate : String) : Bool :=
  match DeprecatedFeatureGateInfo table featureGate with
  | some deprecatedFeature =>
    if deprecatedFeature.State = GA then true
    else if deprecatedFeature.State = Discontinued then false
    else config.featureGates.contains featureGate
  | none => config.featureGates.contains featureGate

end virtconfig

namespace docgen

theorem splitCharGo_ne_nil (sep : Char) : ∀ l : List Char, splitCharGo sep l ≠ []
  | [] => by simp [splitCharGo]
  | c :: rest => by
    simp only [splitCharGo]
    by_cases h : c = sep
    · rw [if_pos h]; simp
    · rw [if_neg h]
      cases hr : splitCharGo sep rest with
      | nil => simp
      | cons g gs => simp

theorem splitCharGo_length (sep : Char) :
    ∀ l : List Char, (splitCharGo sep l).length = l.count sep + 1
  | [] => rfl
  | c :: rest => by
    simp only [splitCharGo]
    by_cases h : c = sep
    · rw [if_pos h]
      simp [List.count_cons, h, splitCharGo_length sep rest]
    · rw [if_neg h]
      cases hr : splitCharGo sep rest with
      | nil => exact absurd hr (splitCharGo_ne_nil sep rest)
      | cons g gs =>
        have := splitCharGo_length sep rest
        rw [hr] at this
        simp only [List.length_cons] at this ⊢
        rw [List.count_cons]
        simp [h, this]

theorem splitGo_length (s : String) : (splitGo s).length = s.data.count ' ' + 1 := by
  unfold splitGo
  rw [List.length_map, splitCharGo_length]

theorem hasPrefixGo_count {s p : String} (h : hasPrefixGo s p = true) :
    p.data.count ' ' ≤ s.data.count ' ' := by
  unfold hasPrefixGo at h
  rw [List.isPrefixOf_iff_prefix] at h
  obtain ⟨t, ht⟩ := h
  rw [← ht, List.count_append]
  omega

theorem typeLine_len {l : String} (h : hasPrefixGo l "# TYPE " = true) :
    3 ≤ (splitGo l).length := by
  have hc := hasPrefixGo_count h
  have h2 : (("# TYPE " : String).data.count ' ') = 2 := by decide
  rw [splitGo_length]
  omega

theorem helpLine_len {l : String} (h : hasPrefixGo l "# HELP " = true) :
    3 ≤ (splitGo l).length := by
  have hc := hasPrefixGo_count h
  have h2 : (("# HELP " : String).data.count ' ') = 2 := by decide
  rw [splitGo_length]
  omega

theorem getElem?_two {α : Type} (l : List α) (d : α) (h : 3 ≤ l.length) :
    l[2]? = some (l.getD 2 d) := by
  rw [List.getElem?_eq_getElem (by omega), List.getD_eq_getElem l d (by omega)]

theorem getElem?_three {α : Type} (l : List α) (d : α) (h : 4 ≤ l.length) :
    l[3]? = some (l.getD 3 d) := by
  rw [List.getElem?_eq_getElem (by omega), List.getD_eq_getElem l d (by omega)]

theorem not_qualHelp_of_typePrefix {l : String} (h : hasPrefixGo l "# TYPE " = true) :
    isQualHelp l = false := by
  unfold isQualHelp
  cases hh : hasPrefixGo l "# HELP " with
  | false => rfl
  | true =>
    exfalso
    unfold hasPrefixGo at h hh
    rw [List.isPrefixOf_iff_prefix] at h hh
    have h1 : (("# TYPE " : String).data) <+: (("# HELP " : String).data) :=
      List.prefix_of_prefix_length_le h hh (by decide)
    have h2 := h1.eq_of_length (by decide)
    exact absurd h2 (by decide)

theorem parseMetricDesc_of_len {line : String} (h : 4 ≤ (splitGo line).length) :
    parseMetricDesc line =
      some (helpName line,
        joinGo (titleGo ((splitGo line).getD 3 "") :: (splitGo line).drop 4)) := by
  simp only [parseMetricDesc, helpName]
  rw [getElem?_two (splitGo line) "" (by omega), getElem?_three (splitGo line) "" h]

end docgen

namespace docgen

theorem ite_cond_true {α : Sort 1} {c : Bool} (h : c = true) (x y : α) :
    (if c = true then x else y) = x := by
  subst h; rfl

theorem ite_cond_false {α : Sort 1} {c : Bool} (h : c = false) (x y : α) :
    (if c = true then x else y) = y := by
  subst h; rfl

/-- The scanning state of `parseAux` behaves exactly as the source's
`parseMetricType` call on the shared scanner: it consumes the lines
`parseMetricType` consumes, completes the pending descriptor with the
type found (or `""` at end of stream) and hands the unconsumed lines
back to the outer loop. -/
theorem parseAux_scan (nm desc : String) : ∀ lines : List String,
    parseAux lines (some (nm, desc)) =
      (parseMetricType nm lines).bind
        (fun tr => (fun ms => (⟨nm, desc, tr.1⟩ : metric) :: ms) <$> parseAux tr.2 none)
  | [] => rfl
  | l :: rest => by
    simp only [parseAux, parseMetricType]
    cases hp : hasPrefixGo l "# TYPE " with
    | true =>
      simp only [ite_cond_true rfl]
      cases h2 : (splitGo l)[2]? with
      | none => rfl
      | some n2 =>
        try dsimp only
        cases hn : (n2 == nm) with
        | true =>
          simp only [ite_cond_true rfl]
          cases h3 : (splitGo l)[3]? with
          | none => rfl
          | some t => rfl
        | false =>
          simp only [ite_cond_false rfl]
          exact parseAux_scan nm desc rest
    | false =>
      simp only [ite_cond_false rfl]
      exact parseAux_scan nm desc rest

/-- When no later line is a type line for `name`, `parseMetricType`
consumes the whole stream and returns the empty type: this is not an
error. -/
theorem parseMetricType_none (name : String) : ∀ lines : List String,
    (∀ l ∈ lines, isTypeLineFor name l = false) →
    parseMetricType name lines = some ("", [])
  | [], _ => rfl
  | l :: rest, h => by
    have hl := h l (List.mem_cons_self l rest)
    have hrest : ∀ x ∈ rest, isTypeLineFor name x = false :=
      fun x hx => h x (List.mem_cons_of_mem _ hx)
    simp only [parseMetricType]
    cases hp : hasPrefixGo l "# TYPE " with
    | true =>
      simp only [ite_cond_true rfl]
      rw [getElem?_two (splitGo l) "" (typeLine_len hp)]
      have hnm : (((splitGo l).getD 2 "") == name) = false := by
        unfold isTypeLineFor at hl
        rw [hp] at hl
        simpa using hl
      try dsimp only
      rw [ite_cond_false hnm]
      exact parseMetricType_none name rest hrest
    | false =>
      simp only [ite_cond_false rfl]
      exact parseMetricType_none name rest hrest

/-- The first type line for `name` in the stream determines the result
of `parseMetricType`: its title-cased 4th field, with the lines after it
left unconsumed. -/
theorem parseMetricType_found (name : String) :
    ∀ (pre : List String) (t : String) (post : List String),
    (∀ l ∈ pre, isTypeLineFor name l = false) →
    isTypeLineFor name t = true →
    4 ≤ (splitGo t).length →
    parseMetricType name (pre ++ t :: post) =
      some (titleGo ((splitGo t).getD 3 ""), post)
  | [], t, post, _, ht, hlen => by
    have hp : hasPrefixGo t "# TYPE " = true := ((Bool.and_eq_true _ _).mp ht).1
    have hnm : (((splitGo t).getD 2 "") == name) = true := ((Bool.and_eq_true _ _).mp ht).2
    simp only [List.nil_append, parseMetricType]
    rw [ite_cond_true hp]
    rw [getElem?_two (splitGo t) "" (typeLine_len hp)]
    try dsimp only
    rw [ite_cond_true hnm]
    rw [getElem?_three (splitGo t) "" hlen]
  | p :: pre, t, post, hpre, ht, hlen => by
    have hl := hpre p (List.mem_cons_self p pre)
    have hpre2 : ∀ x ∈ pre, isTypeLineFor name x = false :=
      fun x hx => hpre x (List.mem_cons_of_mem _ hx)
    simp only [List.cons_append, parseMetricType]
    cases hp : hasPrefixGo p "# TYPE " with
    | true =>
      simp only [ite_cond_true rfl]
      rw [getElem?_two (splitGo p) "" (typeLine_len hp)]
      have hnm : (((splitGo p).getD 2 "") == name) = false := by
        unfold isTypeLineFor at hl
        rw [hp] at hl
        simpa using hl
      try dsimp only
      rw [ite_cond_false hnm]
      exact parseMetricType_found name pre t post hpre2 ht hlen
    | false =>
      simp only [ite_cond_false rfl]
      exact parseMetricType_found name pre t post hpre2 ht hlen

/-- A pending descriptor whose type line never appears is still emitted,
with the empty type, and the parse succeeds. -/
theorem parseAux_noType (name desc : String) (lines : List String)
    (h : ∀ l ∈ lines, isTypeLineFor name l = false) :
    parseAux lines (some (name, desc)) = some [⟨name, desc, ""⟩] := by
  rw [parseAux_scan, parseMetricType_none name lines h]
  rfl

end docgen

namespace docgen

/-- On a well-formed body the scan emits exactly one descriptor per
accepted help line, carrying that line's declared name, in stream order;
the scanning state behaves likewise with its pending name prepended. -/
theorem parseAux_wellFormed : ∀ lines : List String,
    (wfAux none lines = true →
      ∃ parsed : metricList, parseAux lines none = some parsed ∧
        parsed.map metric.name = (lines.filter isQualHelp).map helpName) ∧
    (∀ nm desc, wfAux (some nm) lines = true →
      ∃ parsed : metricList, parseAux lines (some (nm, desc)) = some parsed ∧
        parsed.map metric.name = nm :: (lines.filter isQualHelp).map helpName)
  | [] => by
    constructor
    · exact fun _ => ⟨[], rfl, rfl⟩
    · intro nm desc h
      simp [wfAux] at h
  | l :: rest => by
    obtain ⟨IH1, IH2⟩ := parseAux_wellFormed rest
    constructor
    · intro h
      simp only [wfAux] at h
      cases hq : isQualHelp l with
      | true =>
        rw [ite_cond_true hq] at h
        obtain ⟨h4, hw⟩ := (Bool.and_eq_true _ _).mp h
        have h4' : 4 ≤ (splitGo l).length := of_decide_eq_true h4
        obtain ⟨parsed, hpa, hm⟩ :=
          IH2 (helpName l) (joinGo (titleGo ((splitGo l).getD 3 "") :: (splitGo l).drop 4)) hw
        refine ⟨parsed, ?_, ?_⟩
        · simp only [parseAux]
          rw [ite_cond_true hq, parseMetricDesc_of_len h4']
          exact hpa
        · rw [List.filter_cons_of_pos hq, List.map_cons]
          exact hm
      | false =>
        rw [ite_cond_false hq] at h
        obtain ⟨parsed, hpa, hm⟩ := IH1 h
        refine ⟨parsed, ?_, ?_⟩
        · simp only [parseAux]
          rw [ite_cond_false hq]
          exact hpa
        · rw [List.filter_cons_of_neg (by simp [hq])]
          exact hm
    · intro nm desc h
      simp only [wfAux] at h
      cases ht : isTypeLineFor nm l with
      | true =>
        rw [ite_cond_true ht] at h
        obtain ⟨h4, hw⟩ := (Bool.and_eq_true _ _).mp h
        have h4' : 4 ≤ (splitGo l).length := of_decide_eq_true h4
        have hpre : hasPrefixGo l "# TYPE " = true := ((Bool.and_eq_true _ _).mp ht).1
        have hnm : (((splitGo l).getD 2 "") == nm) = true := ((Bool.and_eq_true _ _).mp ht).2
        obtain ⟨parsed, hpa, hm⟩ := IH1 hw
        refine ⟨⟨nm, desc, titleGo ((splitGo l).getD 3 "")⟩ :: parsed, ?_, ?_⟩
        · simp only [parseAux]
          rw [ite_cond_true hpre, getElem?_two (splitGo l) "" (typeLine_len hpre)]
          try dsimp only
          rw [ite_cond_true hnm, getElem?_three (splitGo l) "" h4']
          try dsimp only
          rw [hpa]
          rfl
        · rw [List.filter_cons_of_neg (by simp [not_qualHelp_of_typePrefix hpre]), List.map_cons]
          rw [hm]
      | false =>
        rw [ite_cond_false ht] at h
        cases hq : isQualHelp l with
        | true =>
          rw [ite_cond_true hq] at h
          exact absurd h (by simp)
        | false =>
          rw [ite_cond_false hq] at h
          obtain ⟨parsed, hpa, hm⟩ := IH2 nm desc h
          refine ⟨parsed, ?_, ?_⟩
          · simp only [parseAux]
            cases hpre : hasPrefixGo l "# TYPE " with
            | false =>
              simp only [ite_cond_false rfl]
              exact hpa
            | true =>
              simp only [ite_cond_true rfl]
              rw [getElem?_two (splitGo l) "" (typeLine_len hpre)]
              try dsimp only
              have hnm : (((splitGo l).getD 2 "") == nm) = false := by
                unfold isTypeLineFor at ht
                rw [hpre] at ht
                simpa using ht
              rw [ite_cond_false hnm]
              exact hpa
          · rw [List.filter_cons_of_neg (by simp [hq])]
            exact hm

end docgen

namespace docgen

/-- The catalog renderer is the concatenation of the per-metric blocks,
in catalog order. -/
theorem metricListWrite_foldr : ∀ ms : metricList,
    metricList.writeToFile ms = (ms.map metric.writeToFile).foldr (· ++ ·) ""
  | [] => rfl
  | m :: rest => by
    simp only [metricList.writeToFile, List.map_cons, List.foldr_cons,
      metricListWrite_foldr rest]

theorem isPrefixOf_append_self : ∀ p r : List Char, p.isPrefixOf (p ++ r) = true
  | [], r => by cases r <;> rfl
  | c :: p, r => by
    simp [List.isPrefixOf, isPrefixOf_append_self p r]

theorem hasSubAux_append (pat : List Char) : ∀ x z : List Char,
    hasSubAux pat (x ++ pat ++ z) = true
  | [], z => by
    simp only [List.nil_append]
    cases hp : pat ++ z with
    | nil =>
      cases pat with
      | nil => simp [hasSubAux, List.isPrefixOf]
      | cons a l => simp at hp
    | cons c t =>
      simp only [hasSubAux]
      rw [← hp, isPrefixOf_append_self]
      simp
  | c :: x, z => by
    show (pat.isPrefixOf ((c :: x) ++ pat ++ z) || hasSubAux pat (x ++ pat ++ z)) = true
    rw [hasSubAux_append pat x z]
    simp

/-- Any string of the form `x ++ y ++ z` contains `y`. -/
theorem containsGo_append (x y z : String) : containsGo (x ++ y ++ z) y = true := by
  unfold containsGo
  have hdata : (x ++ y ++ z).data = x.data ++ y.data ++ z.data := rfl
  rw [hdata]
  exact hasSubAux_append y.data x.data z.data

end docgen

namespace docgen

/-- C1: on a well-formed exposition input (every accepted help line is
followed by its `# TYPE` line — with enough fields on both lines —
before any other accepted help line), `parseVirtMetrics` appends exactly
one descriptor per help line that passes the namespace filter, and each
descriptor's name is the 3rd space-separated field of its help line. -/
theorem parseVirtMetrics_one_descriptor_per_help_line
    (lines : List String) (initial : metricList)
    (h : wellFormed lines = true) :
    ∃ parsed : metricList,
      parseAux lines none = some parsed ∧
      parseVirtMetrics lines initial = some (sortMetrics (initial ++ parsed)) ∧
      parsed.length = (lines.filter isQualHelp).length ∧
      parsed.map metric.name = (lines.filter isQualHelp).map helpName := by
  obtain ⟨parsed, hpa, hm⟩ := (parseAux_wellFormed lines).1 h
  refine ⟨parsed, hpa, ?_, ?_, hm⟩
  · unfold parseVirtMetrics
    rw [hpa]
  · have hlen := congrArg List.length hm
    simpa using hlen

/-- Witness for C1 on a concrete well-formed two-metric body. -/
theorem parseVirtMetrics_one_descriptor_per_help_line_witness :
    wellFormed ["# HELP kubevirt_a counts a.", "# TYPE kubevirt_a gauge",
        "# HELP kubevirt_b counts b.", "junk 1 2 3", "# TYPE kubevirt_b counter"] = true ∧
    (∃ parsed : metricList,
      parseAux ["# HELP kubevirt_a counts a.", "# TYPE kubevirt_a gauge",
        "# HELP kubevirt_b counts b.", "junk 1 2 3", "# TYPE kubevirt_b counter"] none =
          some parsed ∧
      parseVirtMetrics ["# HELP kubevirt_a counts a.", "# TYPE kubevirt_a gauge",
        "# HELP kubevirt_b counts b.", "junk 1 2 3", "# TYPE kubevirt_b counter"] [] =
          some (sortMetrics ([] ++ parsed)) ∧
      parsed.length =
        ((["# HELP kubevirt_a counts a.", "# TYPE kubevirt_a gauge",
          "# HELP kubevirt_b counts b.", "junk 1 2 3",
          "# TYPE kubevirt_b counter"]).filter isQualHelp).length ∧
      parsed.map metric.name =
        ((["# HELP kubevirt_a counts a.", "# TYPE kubevirt_a gauge",
          "# HELP kubevirt_b counts b.", "junk 1 2 3",
          "# TYPE kubevirt_b counter"]).filter isQualHelp).map helpName) :=
  ⟨by decide, parseVirtMetrics_one_descriptor_per_help_line _ [] (by decide)⟩

/-- C2 counterexample: a help line whose declared name (`other_metric`)
does not contain `kubevirt_` but whose description does is nevertheless
extracted, because the source filters on the whole line
(`strings.Contains(helpLine, filter)`), not on the name. -/
theorem filter_checks_line_counterexample :
    hasPrefixGo "# HELP other_metric counts kubevirt_ objects" "# HELP " = true ∧
    containsGo "other_metric" filter = false ∧
    helpName "# HELP other_metric counts kubevirt_ objects" = "other_metric" ∧
    parseVirtMetrics ["# HELP other_metric counts kubevirt_ objects"] [] =
      some [⟨"other_metric", "Counts kubevirt_ objects", ""⟩] :=
  ⟨by decide, by decide, by decide, by decide⟩

/-- C2 amended: the namespace filter is applied to the whole help line.
A line beginning with `# HELP ` in which the substring `kubevirt_`
occurs nowhere in the entire line contributes no descriptor, and the
scan continues as if the line were absent. -/
theorem parseVirtMetrics_skips_line_without_substring
    (line : String) (rest : List String) (initial : metricList)
    (_hpre : hasPrefixGo line "# HELP " = true)
    (hc : containsGo line filter = false) :
    parseAux (line :: rest) none = parseAux rest none ∧
    parseVirtMetrics (line :: rest) initial = parseVirtMetrics rest initial := by
  have hq : isQualHelp line = false := by
    unfold isQualHelp
    rw [hc, Bool.and_false]
  have h1 : parseAux (line :: rest) none = parseAux rest none := by
    simp only [parseAux]
    rw [ite_cond_false hq]
  exact ⟨h1, by unfold parseVirtMetrics; rw [h1]⟩

/-- Witness for the amended C2 on a concrete filtered-out help line. -/
theorem parseVirtMetrics_skips_line_without_substring_witness :
    hasPrefixGo "# HELP other_metric plain description." "# HELP " = true ∧
    containsGo "# HELP other_metric plain description." filter = false ∧
    (parseAux ["# HELP other_metric plain description."] none = parseAux [] none ∧
      parseVirtMetrics ["# HELP other_metric plain description."] [] =
        parseVirtMetrics [] []) :=
  ⟨by decide, by decide,
    parseVirtMetrics_skips_line_without_substring _ [] [] (by decide) (by decide)⟩

/-- C3: for a pending metric `name`, the first later line with prefix
`# TYPE ` declaring `name` as its 3rd field determines the extracted
type — the title-cased 4th field of that line; if no such line exists
the whole stream is consumed, the type is the empty string, the pending
descriptor is still emitted and no error is reported. -/
theorem parseMetricType_first_match_else_empty (name : String) (lines : List String) :
    ((∀ l ∈ lines, isTypeLineFor name l = false) →
      parseMetricType name lines = some ("", [])) ∧
    (∀ pre t post, lines = pre ++ t :: post →
      (∀ l ∈ pre, isTypeLineFor name l = false) →
      isTypeLineFor name t = true →
      4 ≤ (splitGo t).length →
      parseMetricType name lines = some (titleGo ((splitGo t).getD 3 ""), post)) ∧
    (∀ desc, (∀ l ∈ lines, isTypeLineFor name l = false) →
      parseAux lines (some (name, desc)) = some [⟨name, desc, ""⟩]) := by
  refine ⟨parseMetricType_none name lines, ?_,
    fun desc h => parseAux_noType name desc lines h⟩
  intro pre t post heq hpre ht hlen
  rw [heq]
  exact parseMetricType_found name pre t post hpre ht hlen

/-- Witness for C3: a found type line two lines later, and a stream with
no matching type line. -/
theorem parseMetricType_first_match_else_empty_witness :
    parseMetricType "kubevirt_x" ["junk a b c"] = some ("", []) ∧
    parseMetricType "kubevirt_x" ["junk", "# TYPE kubevirt_x gauge", "tail"] =
      some ("Gauge", ["tail"]) ∧
    parseAux ["junk a b c"] (some ("kubevirt_x", "D")) =
      some [⟨"kubevirt_x", "D", ""⟩] := by
  refine ⟨(parseMetricType_first_match_else_empty "kubevirt_x" ["junk a b c"]).1 (by decide),
    ?_,
    (parseMetricType_first_match_else_empty "kubevirt_x" ["junk a b c"]).2.2 "D" (by decide)⟩
  have hfound :=
    (parseMetricType_first_match_else_empty "kubevirt_x"
        ["junk", "# TYPE kubevirt_x gauge", "tail"]).2.1
      ["junk"] "# TYPE kubevirt_x gauge" ["tail"] rfl (by decide) (by decide) (by decide)
  rw [hfound]
  decide

/-- C4: a help line that passes the namespace filter but has fewer than
4 space-separated fields drives `parseMetricDesc` into its unguarded
`split[3]` access: the modelled index-out-of-range condition (`none`),
which aborts the whole parse instead of skipping the line or returning
an error value. -/
theorem parseMetricDesc_short_line_out_of_range :
    hasPrefixGo "# HELP kubevirt_x" "# HELP " = true ∧
    containsGo "# HELP kubevirt_x" filter = true ∧
    (splitGo "# HELP kubevirt_x").length < 4 ∧
    parseMetricDesc "# HELP kubevirt_x" = none ∧
    parseVirtMetrics ["# HELP kubevirt_x"] [] = none :=
  ⟨by decide, by decide, by decide, by decide, by decide⟩

end docgen

namespace docgen

/-- C5: every successful run's catalog is sorted by name in
non-decreasing byte/lexicographic order after the merge stage, and the
renderer emits the opening, then exactly one block per descriptor in
catalog order with no reordering, then the footer — so the blocks of the
rendered document appear in non-decreasing name order. -/
theorem catalog_sorted_and_rendered_in_order
    (lines : List String) (initial ms : metricList)
    (h : parseVirtMetrics lines initial = some ms) :
    List.Sorted metricLe ms ∧
    List.Pairwise (fun a b : String => charListLe a.data b.data = true)
      (ms.map metric.name) ∧
    writeToFile ms = opening ++ (ms.map metric.writeToFile).foldr (· ++ ·) "" ++ footer := by
  have hsorted : List.Sorted metricLe ms := by
    unfold parseVirtMetrics at h
    cases hpa : parseAux lines none with
    | none =>
      rw [hpa] at h
      exact absurd h (by simp)
    | some parsed =>
      rw [hpa] at h
      have hms : ms = sortMetrics (initial ++ parsed) := by
        injection h with h2
        exact h2.symm
      rw [hms]
      exact List.sorted_insertionSort metricLe _
  refine ⟨hsorted, ?_, ?_⟩
  · rw [List.pairwise_map]
    exact hsorted.imp (fun hab => (metricLe_iff _ _).mp hab)
  · unfold writeToFile
    rw [metricListWrite_foldr]

/-- Witness for C5 on a concrete run merging one scraped metric into a
one-element initial catalog. -/
theorem catalog_sorted_and_rendered_in_order_witness :
    parseVirtMetrics ["# HELP kubevirt_b counts b.", "# TYPE kubevirt_b gauge"]
        [⟨"kubevirt_a", "A.", "Gauge"⟩] =
      some [⟨"kubevirt_a", "A.", "Gauge"⟩, ⟨"kubevirt_b", "Counts b.", "Gauge"⟩] ∧
    (List.Sorted metricLe
        [⟨"kubevirt_a", "A.", "Gauge"⟩, ⟨"kubevirt_b", "Counts b.", "Gauge"⟩] ∧
      List.Pairwise (fun a b : String => charListLe a.data b.data = true)
        (([⟨"kubevirt_a", "A.", "Gauge"⟩,
           ⟨"kubevirt_b", "Counts b.", "Gauge"⟩] : metricList).map metric.name) ∧
      writeToFile [⟨"kubevirt_a", "A.", "Gauge"⟩, ⟨"kubevirt_b", "Counts b.", "Gauge"⟩] =
        opening ++
          (([⟨"kubevirt_a", "A.", "Gauge"⟩,
             ⟨"kubevirt_b", "Counts b.", "Gauge"⟩] : metricList).map
              metric.writeToFile).foldr (· ++ ·) "" ++
          footer) :=
  ⟨by decide,
    catalog_sorted_and_rendered_in_order
      ["# HELP kubevirt_b counts b.", "# TYPE kubevirt_b gauge"]
      [⟨"kubevirt_a", "A.", "Gauge"⟩]
      [⟨"kubevirt_a", "A.", "Gauge"⟩, ⟨"kubevirt_b", "Counts b.", "Gauge"⟩]
      (by decide)⟩

/-- C6: sorting a catalog that is already sorted by name (non-decreasing)
returns the identical sequence, element for element, including the
relative order of entries with equal names. -/
theorem sort_sorted_eq_self (ms : metricList) (h : List.Sorted metricLe ms) :
    sortMetrics ms = ms :=
  h.insertionSort_eq

/-- Witness for C6 on a sorted catalog with two equal-name entries that
differ in description and type. -/
theorem sort_sorted_eq_self_witness :
    List.Sorted metricLe
      [⟨"kubevirt_a", "first", "Gauge"⟩, ⟨"kubevirt_a", "second", "Histogram"⟩,
        ⟨"kubevirt_b", "third", "Counter"⟩] ∧
    sortMetrics
        [⟨"kubevirt_a", "first", "Gauge"⟩, ⟨"kubevirt_a", "second", "Histogram"⟩,
          ⟨"kubevirt_b", "third", "Counter"⟩] =
      [⟨"kubevirt_a", "first", "Gauge"⟩, ⟨"kubevirt_a", "second", "Histogram"⟩,
        ⟨"kubevirt_b", "third", "Counter"⟩] :=
  ⟨by decide, sort_sorted_eq_self _ (by decide)⟩

/-- C7: for pairwise-disjoint, non-empty parsed (A), static-registry (B)
and rule-adapter (C) inputs, the merged catalog has exactly
|A| + |B| + |C| entries: the merge concatenates and sorts and never
drops, deduplicates or invents entries. -/
theorem merged_catalog_length
    (lines : List String) (staticMetrics : metricList) (rules : List RecordingRule)
    (A ms : metricList)
    (hA : parseAux lines none = some A)
    (hrun : parseVirtMetrics lines
        (getMetricsNotIncludeInEndpointByDefault staticMetrics rules) = some ms)
    (_hA0 : A ≠ []) (_hB0 : staticMetrics ≠ []) (_hC0 : ruleAdapter rules ≠ [])
    (_hAB : ∀ a ∈ A, ∀ b ∈ staticMetrics, a.name ≠ b.name)
    (_hAC : ∀ a ∈ A, ∀ c ∈ ruleAdapter rules, a.name ≠ c.name)
    (_hBC : ∀ b ∈ staticMetrics, ∀ c ∈ ruleAdapter rules, b.name ≠ c.name) :
    ms.length = A.length + staticMetrics.length + (ruleAdapter rules).length := by
  unfold parseVirtMetrics at hrun
  rw [hA] at hrun
  have hms : ms = sortMetrics (getMetricsNotIncludeInEndpointByDefault staticMetrics rules ++ A) := by
    injection hrun with h2
    exact h2.symm
  rw [hms]
  unfold sortMetrics getMetricsNotIncludeInEndpointByDefault
  rw [List.length_insertionSort]
  simp only [List.length_append]
  omega

/-- Witness for C7 with singleton disjoint inputs from all three
sources. -/
theorem merged_catalog_length_witness :
    parseAux ["# HELP kubevirt_a counts a."] none =
      some [⟨"kubevirt_a", "Counts a.", ""⟩] ∧
    parseVirtMetrics ["# HELP kubevirt_a counts a."]
        (getMetricsNotIncludeInEndpointByDefault [⟨"kubevirt_b", "B.", "Gauge"⟩]
          [⟨"kubevirt_c", "C.", "gauge"⟩]) =
      some [⟨"kubevirt_a", "Counts a.", ""⟩, ⟨"kubevirt_b", "B.", "Gauge"⟩,
        ⟨"kubevirt_c", "C.", "Gauge"⟩] ∧
    ([⟨"kubevirt_a", "Counts a.", ""⟩, ⟨"kubevirt_b", "B.", "Gauge"⟩,
        ⟨"kubevirt_c", "C.", "Gauge"⟩] : metricList).length =
      ([⟨"kubevirt_a", "Counts a.", ""⟩] : metricList).length +
        ([⟨"kubevirt_b", "B.", "Gauge"⟩] : metricList).length +
        (ruleAdapter [⟨"kubevirt_c", "C.", "gauge"⟩]).length :=
  ⟨by decide, by decide,
    merged_catalog_length ["# HELP kubevirt_a counts a."]
      [⟨"kubevirt_b", "B.", "Gauge"⟩] [⟨"kubevirt_c", "C.", "gauge"⟩]
      [⟨"kubevirt_a", "Counts a.", ""⟩]
      [⟨"kubevirt_a", "Counts a.", ""⟩, ⟨"kubevirt_b", "B.", "Gauge"⟩,
        ⟨"kubevirt_c", "C.", "Gauge"⟩]
      (by decide) (by decide) (by decide) (by decide) (by decide)
      (by decide) (by decide) (by decide)⟩

/-- C8: the end-to-end scenario of the spec: the help line for
`kubevirt_vmi_count` with a later matching type line yields the
descriptor with title-cased description `Some vm count.` and type
`Gauge`, rendered as the heading `### kubevirt_vmi_count` followed by
the body line `Some vm count. Type: Gauge.`. -/
theorem end_to_end_vmi_count :
    parseVirtMetrics ["# HELP kubevirt_vmi_count some vm count.",
        "kubevirt_vmi_count 0", "# TYPE kubevirt_vmi_count gauge"] [] =
      some [⟨"kubevirt_vmi_count", "Some vm count.", "Gauge"⟩] ∧
    metric.writeToFile ⟨"kubevirt_vmi_count", "Some vm count.", "Gauge"⟩ =
      "### kubevirt_vmi_count\nSome vm count. Type: Gauge.\n\n" :=
  ⟨by decide, by decide⟩

end docgen

namespace docgen

/-- C9: on any response status other than 200 the run aborts with a
failure cause carrying the observed numeric status code, before any
parsing or rendering — the outcome is the same whatever the body or the
initial catalog, and no document is produced. -/
theorem non_success_status_aborts (status : Nat) (body : List String)
    (initialMetrics : metricList) (h : status ≠ 200) :
    main status body initialMetrics =
      Except.error ("got HTTP status code of " ++ toString status ++ " from /metrics") ∧
    containsGo ("got HTTP status code of " ++ toString status ++ " from /metrics")
      (toString status) = true ∧
    (∀ (body2 : List String) (initial2 : metricList),
      main status body initialMetrics = main status body2 initial2) := by
  have hmain : ∀ (b : List String) (ml : metricList),
      main status b ml =
        Except.error ("got HTTP status code of " ++ toString status ++ " from /metrics") := by
    intro b ml
    unfold main
    rw [if_neg h]
  exact ⟨hmain body initialMetrics, containsGo_append _ _ _,
    fun b2 i2 => (hmain body initialMetrics).trans (hmain b2 i2).symm⟩

/-- Witness for C9 at status 500. -/
theorem non_success_status_aborts_witness :
    (500 : Nat) ≠ 200 ∧
    (main 500 ["# HELP kubevirt_x y z"] [] =
        Except.error ("got HTTP status code of " ++ toString (500 : Nat) ++ " from /metrics") ∧
      containsGo ("got HTTP status code of " ++ toString (500 : Nat) ++ " from /metrics")
        (toString (500 : Nat)) = true ∧
      (∀ (body2 : List String) (initial2 : metricList),
        main 500 ["# HELP kubevirt_x y z"] [] = main 500 body2 initial2)) :=
  ⟨by decide, non_success_status_aborts 500 ["# HELP kubevirt_x y z"] [] (by decide)⟩

end docgen

namespace virtconfig

/-- C10: a gate whose table entry has state `GA` is enabled regardless
of the cluster configuration, one with state `Discontinued` is disabled
regardless of it; any other tabled state, and any gate absent from the
table, is enabled exactly when the configuration's developer
feature-gate list contains the name. -/
theorem isFeatureGateEnabled_spec
    (table : List DeprecatedFeatureGate) (config : ClusterConfig)
    (featureGate : String) :
    (∀ d, DeprecatedFeatureGateInfo table featureGate = some d →
      (d.State = GA → isFeatureGateEnabled table config featureGate = true) ∧
      (d.State = Discontinued → isFeatureGateEnabled table config featureGate = false) ∧
      (d.State ≠ GA → d.State ≠ Discontinued →
        (isFeatureGateEnabled table config featureGate = true ↔
          featureGate ∈ config.featureGates))) ∧
    (DeprecatedFeatureGateInfo table featureGate = none →
      (isFeatureGateEnabled table config featureGate = true ↔
        featureGate ∈ config.featureGates)) := by
  constructor
  · intro d hd
    refine ⟨?_, ?_, ?_⟩
    · intro hga
      unfold isFeatureGateEnabled
      rw [hd]
      try dsimp only
      rw [if_pos hga]
    · intro hdisc
      unfold isFeatureGateEnabled
      rw [hd]
      try dsimp only
      by_cases hga : d.State = GA
      · rw [hga] at hdisc
        exact absurd hdisc (by decide)
      · rw [if_neg hga, if_pos hdisc]
    · intro hga hdisc
      unfold isFeatureGateEnabled
      rw [hd]
      try dsimp only
      rw [if_neg hga, if_neg hdisc]
      exact List.elem_iff
  · intro hnone
    unfold isFeatureGateEnabled
    rw [hnone]
    exact List.elem_iff

/-- Witness for C10 over a three-entry table: a `GA` gate enabled
despite an empty match in the configuration, a `Discontinued` gate
disabled despite appearing there, a `Deprecated` gate and an untabled
gate following the configuration list. -/
theorem isFeatureGateEnabled_spec_witness :
    DeprecatedFeatureGateInfo
        [⟨"G1", GA, ""⟩, ⟨"G2", Discontinued, "m"⟩, ⟨"G3", Deprecated, "m"⟩] "G1" =
      some ⟨"G1", GA, ""⟩ ∧
    isFeatureGateEnabled
        [⟨"G1", GA, ""⟩, ⟨"G2", Discontinued, "m"⟩, ⟨"G3", Deprecated, "m"⟩]
        ⟨["G2", "G3", "G4"]⟩ "G1" = true ∧
    isFeatureGateEnabled
        [⟨"G1", GA, ""⟩, ⟨"G2", Discontinued, "m"⟩, ⟨"G3", Deprecated, "m"⟩]
        ⟨["G2", "G3", "G4"]⟩ "G2" = false ∧
    isFeatureGateEnabled
        [⟨"G1", GA, ""⟩, ⟨"G2", Discontinued, "m"⟩, ⟨"G3", Deprecated, "m"⟩]
        ⟨["G2", "G3", "G4"]⟩ "G3" = true ∧
    isFeatureGateEnabled
        [⟨"G1", GA, ""⟩, ⟨"G2", Discontinued, "m"⟩, ⟨"G3", Deprecated, "m"⟩]
        ⟨["G2", "G3", "G4"]⟩ "G4" = true ∧
    isFeatureGateEnabled
        [⟨"G1", GA, ""⟩, ⟨"G2", Discontinued, "m"⟩, ⟨"G3", Deprecated, "m"⟩]
        ⟨["G2", "G3", "G4"]⟩ "G5" = false := by
  refine ⟨by decide, ?_, ?_, ?_, ?_, by decide⟩
  · exact ((isFeatureGateEnabled_spec
      [⟨"G1", GA, ""⟩, ⟨"G2", Discontinued, "m"⟩, ⟨"G3", Deprecated, "m"⟩]
      ⟨["G2", "G3", "G4"]⟩ "G1").1 ⟨"G1", GA, ""⟩ (by decide)).1 rfl
  · exact ((isFeatureGateEnabled_spec
      [⟨"G1", GA, ""⟩, ⟨"G2", Discontinued, "m"⟩, ⟨"G3", Deprecated, "m"⟩]
      ⟨["G2", "G3", "G4"]⟩ "G2").1 ⟨"G2", Discontinued, "m"⟩ (by decide)).2.1 rfl
  · exact ((isFeatureGateEnabled_spec
      [⟨"G1", GA, ""⟩, ⟨"G2", Discontinued, "m"⟩, ⟨"G3", Deprecated, "m"⟩]
      ⟨["G2", "G3", "G4"]⟩ "G3").1 ⟨"G3", Deprecated, "m"⟩ (by decide)).2.2
      (by decide) (by decide) |>.mpr (by decide)
  · exact ((isFeatureGateEnabled_spec
      [⟨"G1", GA, ""⟩, ⟨"G2", Discontinued, "m"⟩, ⟨"G3", Deprecated, "m"⟩]
      ⟨["G2", "G3", "G4"]⟩ "G4").2 (by decide)).mpr (by decide)

end virtconfig
